import Mathlib

/-!
Verification of the ML-Data-Wrangler corpus-construction and topic-sweep
pipeline: a shallow embedding of the data-wrangling code in
`src/classes.py` / `src/wrangler.py` and the topic-sweep code in
`src/LDA_logic.py` / `src/lda.py`, together with theorems settling the
specification claims about them.

Machine text is modelled as `List Char`; the embedding works at that level
and wraps `String` at the boundary.
-/

namespace Wrangle

/-! ## Text Cleanser (`WranglerWorker._cleanse`, wrangler.py lines 303-324)

The cleanser computes
`unicodedata.normalize("NFKC", unescape(body)).replace("\n", " ").replace("\r", " ").replace("  ", " ").split()`
and then drops every word recognised by one of five validators
(email, url, uuid, md5, ipv4), rejoining the survivors with single spaces. -/

/-- Model of Python `html.unescape`, resolving the standard named character
references `&amp;` `&lt;` `&gt;` `&quot;` left to right, one pass, exactly as
CPython does on inputs using only these references.  (The external `html`
module is not part of this repository; texts considered here use only these
references.) -/
def unescapeL : List Char → List Char
  | '&' :: 'a' :: 'm' :: 'p' :: ';' :: r => '&' :: unescapeL r
  | '&' :: 'l' :: 't' :: ';' :: r => '<' :: unescapeL r
  | '&' :: 'g' :: 't' :: ';' :: r => '>' :: unescapeL r
  | '&' :: 'q' :: 'u' :: 'o' :: 't' :: ';' :: r => '"' :: unescapeL r
  | c :: rest => c :: unescapeL rest
  | [] => []

/-- Model of `unicodedata.normalize("NFKC", ·)`: the identity on the ASCII
texts this development evaluates (NFKC fixes every ASCII string; the external
Unicode tables are out of scope). -/
def nfkc (cs : List Char) : List Char := cs

/-- Model of Python `str.replace(a, b)` for single-character patterns:
replaces every occurrence. -/
def pyReplaceChar (a b : Char) (cs : List Char) : List Char :=
  cs.map (fun c => if c = a then b else c)

/-- Model of Python `str.replace("  ", " ")`: collapse non-overlapping
double spaces in one left-to-right pass. -/
def collapseDouble : List Char → List Char
  | [] => []
  | [c] => [c]
  | c :: d :: r =>
    if c = ' ' ∧ d = ' ' then ' ' :: collapseDouble r
    else c :: collapseDouble (d :: r)

/-- Accumulator loop for `splitWs`; `acc` holds the current word reversed. -/
def splitWsAux : List Char → List Char → List (List Char)
  | [], acc => if acc.isEmpty then [] else [acc.reverse]
  | c :: cs, acc =>
    if c.isWhitespace then
      if acc.isEmpty then splitWsAux cs []
      else acc.reverse :: splitWsAux cs []
    else splitWsAux cs (c :: acc)

/-- Model of Python `str.split()` (no argument): split on runs of
whitespace, discarding empty chunks. -/
def splitWs (cs : List Char) : List (List Char) :=
  splitWsAux cs []

/-- Hexadecimal digit test (used by the uuid and md5 validators). -/
def isHexDigit (c : Char) : Bool :=
  c.isDigit || ('a' ≤ c && c ≤ 'f') || ('A' ≤ c && c ≤ 'F')

/-- Decimal value of a digit string. -/
def digitsToNat (cs : List Char) : Nat :=
  cs.foldl (fun acc c => acc * 10 + (c.toNat - '0'.toNat)) 0

/-- Model of `validators.email`: one `@`, non-empty local part, domain
containing a dot and not starting or ending with one. -/
def isEmail (w : List Char) : Bool :=
  match w.splitOn '@' with
  | [loc, dom] =>
    decide (loc ≠ []) && dom.contains '.' &&
      decide (dom.head? ≠ some '.') && decide (dom.getLast? ≠ some '.')
  | _ => false

/-- Model of `validators.url` for the HTTP(S) urls considered: an
`http://` or `https://` scheme followed by a non-empty remainder. -/
def isUrl (w : List Char) : Bool :=
  (("http://".toList).isPrefixOf w && decide (7 < w.length)) ||
    (("https://".toList).isPrefixOf w && decide (8 < w.length))

/-- Model of `validators.uuid`: five hyphen-separated hex groups of
lengths 8-4-4-4-12. -/
def isUuid (w : List Char) : Bool :=
  match w.splitOn '-' with
  | [a, b, c, d, e] =>
    a.length == 8 && b.length == 4 && c.length == 4 && d.length == 4 &&
      e.length == 12 && (a ++ b ++ c ++ d ++ e).all isHexDigit
  | _ => false

/-- Model of `validators.hashes.md5`: exactly 32 hex digits. -/
def isMd5 (w : List Char) : Bool :=
  w.length == 32 && w.all isHexDigit

/-- Model of `validators.ip_address.ipv4`: four dot-separated decimal
octets, each 0-255 with no leading zero. -/
def isIpv4 (w : List Char) : Bool :=
  match w.splitOn '.' with
  | [a, b, c, d] =>
    [a, b, c, d].all fun oct =>
      decide (oct ≠ []) && oct.all Char.isDigit && decide (digitsToNat oct ≤ 255) &&
        (decide (oct.length = 1) || decide (oct.head? ≠ some '0'))
  | _ => false

/-- A word is discarded by the cleanser when any of the five validators
accepts it (`wrangler.py` lines 310-321). -/
def discardWord (w : List Char) : Bool :=
  isEmail w || isUrl w || isUuid w || isMd5 w || isIpv4 w

/-- The normalisation applied before splitting (`wrangler.py` line 307). -/
def preprocess (cs : List Char) : List Char :=
  collapseDouble (pyReplaceChar '\r' ' ' (pyReplaceChar '\n' ' ' (nfkc (unescapeL cs))))

/-- The word list surviving the cleanser's filter. -/
def cleanseWords (cs : List Char) : List (List Char) :=
  (splitWs (preprocess cs)).filter (fun w => !discardWord w)

/-- `" ".join` of a word list. -/
def joinWords : List (List Char)  → List Char
  | [] => []
  | [w] => w
  | w :: ws => w ++ ' ' :: joinWords ws

/-- `WranglerWorker._cleanse` (wrangler.py lines 303-324): normalise,
unescape, flatten newlines, split into words, drop validator-matched words,
rejoin with single spaces. -/
def cleanse (s : String) : String :=
  String.mk (joinWords (cleanseWords s.toList))

/-! ### Structural lemmas about the cleansing pipeline -/

/-- A well-formed output word: non-empty and whitespace-free. -/
def goodWord (w : List Char) : Prop :=
  w ≠ [] ∧ ∀ c ∈ w, c.isWhitespace = false

/-! ## Data model (`classes.py` lines 22-63, `wrangler.py` lines 54-160)

Timestamps are carried as their source strings; `datetime.strptime` with the
fixed `%Y-%m-%dT%H:%M:%SZ` format is modelled as a format check on the
string (`validTimestamp`). -/

/-- Python exception kinds relevant to the embedded code paths. -/
inductive PyErr
  | fileNotFound
  | keyError
  | indexError
  | valueError
deriving DecidableEq

/-- Boolean success test for `Except` results. -/
def exceptOk {ε α : Type} : Except ε α → Bool
  | .ok _ => true
  | .error _ => false

/-- `TicketStatus` enumeration (classes.py lines 22-27). -/
inductive TicketStatus
  | OPEN
  | HOLD
  | PENDING
  | SOLVED
  | CLOSED
deriving DecidableEq

/-- ASCII upper-casing of one character (`str.upper` acts per character). -/
def upperChar (c : Char) : Char :=
  if 'a' ≤ c ∧ c ≤ 'z' then Char.ofNat (c.toNat - 32) else c

/-- `TicketStatus[s.upper()]`; `none` models the `KeyError` on an
unrecognised status string. -/
def statusOf (s : String) : Option TicketStatus :=
  let u := s.toList.map upperChar
  if u = "OPEN".toList then some .OPEN
  else if u = "HOLD".toList then some .HOLD
  else if u = "PENDING".toList then some .PENDING
  else if u = "SOLVED".toList then some .SOLVED
  else if u = "CLOSED".toList then some .CLOSED
  else none

/-- Model of `datetime.strptime(s, "%Y-%m-%dT%H:%M:%SZ")` succeeding:
the fixed 20-character shape with in-range month, day, hour, minute and
second fields (strptime accepts day 1-31 for every month and seconds up
to 61). -/
def validTimestamp (s : String) : Bool :=
  match s.toList with
  | [y1, y2, y3, y4, '-', m1, m2, '-', d1, d2, 'T',
     h1, h2, ':', n1, n2, ':', s1, s2, 'Z'] =>
    [y1, y2, y3, y4, m1, m2, d1, d2, h1, h2, n1, n2, s1, s2].all Char.isDigit
      && decide (1 ≤ digitsToNat [m1, m2]) && decide (digitsToNat [m1, m2] ≤ 12)
      && decide (1 ≤ digitsToNat [d1, d2]) && decide (digitsToNat [d1, d2] ≤ 31)
      && decide (digitsToNat [h1, h2] ≤ 23) && decide (digitsToNat [n1, n2] ≤ 59)
      && decide (digitsToNat [s1, s2] ≤ 61)
  | _ => false

/-- A `Comment` object (classes.py lines 29-40): id, creation timestamp,
body. -/
structure CommentW where
  id : Nat
  created_at : String
  body : String
deriving DecidableEq

/-- One element of a Ticket's `comments` list in the classes.py variant:
either a `Comment` object or the plain dict returned by
`to_dict_format()` (both carry the same three fields). -/
inductive CommentEntry
  | obj (c : CommentW)
  | dict (d : CommentW)
deriving DecidableEq

/-- True exactly on the plain-dict shape. -/
def isDictEntry : CommentEntry → Bool
  | .dict _ => true
  | .obj _ => false

/-- A reshaped `Ticket` (classes.py lines 43-63). -/
structure TicketW where
  id : Nat
  created_at : String
  last_updated : String
  status : TicketStatus
  subject : String
  tags : List String
  outcome : String
  ticket_type : String
  comments : List CommentEntry
deriving DecidableEq

/-- One raw ticket record of the input JSON array (§6 of the spec): the
`fields` entry is the list of the field objects' `value` strings. -/
structure TicketRecord where
  id : Nat
  created_at : String
  updated_at : String
  subject : String
  tags : List String
  status : String
  fields : List String
  description : String
deriving DecidableEq

/-- One raw comment record from a comments file. -/
structure CommentRec where
  id : Nat
  created_at : String
  plain_body : String
deriving DecidableEq

/-- One file of the comments directory: its name and its parsed JSON
object (keys mapping to arrays of comment records). -/
structure FileEntry where
  name : String
  data : List (String × List CommentRec)
deriving DecidableEq

/-! ## Stage 1: reshape tickets (`DataWrangler.tickets_reshaped`,
classes.py lines 77-104) -/

/-- Reshaping a single ticket record (the `Ticket(...)` construction at
classes.py lines 82-97): timestamps must parse, `fields[2]` and `fields[0]`
must exist, the status must be known.  `cid` is the generated id of the
synthesized first comment (`random.randint` at line 96); the first comment's
body is the record's `description`. -/
def reshapeTicket (cid : Nat) (r : TicketRecord) : Except PyErr TicketW :=
  if !validTimestamp r.created_at then .error .valueError
  else if !validTimestamp r.updated_at then .error .valueError
  else
    match r.fields.get? 2, r.fields.get? 0, statusOf r.status with
    | some outc, some ty, some st =>
      .ok ⟨r.id, r.created_at, r.updated_at, st, r.subject, r.tags, outc, ty,
        [.obj ⟨cid, r.created_at, r.description⟩]⟩
    | none, _, _ => .error .indexError
    | _, none, _ => .error .indexError
    | _, _, none => .error .keyError

/-- Decidable test that a record reshapes successfully (independent of the
generated comment id). -/
def recordParses (r : TicketRecord) : Bool :=
  validTimestamp r.created_at && validTimestamp r.updated_at &&
    decide (3 ≤ r.fields.length) && (statusOf r.status).isSome

/-- The reshape loop (classes.py lines 81-99): records are processed in
order, each success appends one Ticket to the store; the surrounding
`try/except` aborts the loop at the first failure, keeping the tickets
already appended and returning `False`.  `gen idx` is the generated id of
the idx-th synthesized comment. -/
def reshapeLoop (gen : Nat → Nat) (idx : Nat) : List TicketRecord → List TicketW × Bool
  | [] => ([], true)
  | r :: rs =>
    match reshapeTicket (gen idx) r with
    | .ok t =>
      let rest := reshapeLoop gen (idx + 1) rs
      (t :: rest.1, rest.2)
    | .error _ => ([], false)

/-! ## Stage 2: bind comments (`DataWrangler.comments_bound`,
classes.py lines 118-139) -/

/-- The dict appended for one external comment record:
`reshaped_comment.to_dict_format()` (classes.py line 131); classes.py's
`reshaped_comment` keeps `created_at` raw and does not cleanse the body. -/
def dictOf (c : CommentRec) : CommentEntry :=
  .dict ⟨c.id, c.created_at, c.plain_body⟩

/-- All comment entries produced from one comments file, in
`for key, value in comments_data.items(): for comment in value` order. -/
def commentsFromFile (f : FileEntry) : List CommentEntry :=
  ((f.data.map Prod.snd).flatten).map dictOf

/-- Binding for one ticket: every listed file whose name starts with the
ticket id contributes its comment dicts, in listing order
(classes.py lines 120-135). -/
def bindTicket (listing : List FileEntry) (t : TicketW) : TicketW :=
  { t with
    comments := t.comments ++
      ((listing.filter fun f =>
        (toString t.id).toList.isPrefixOf f.name.toList).map commentsFromFile).flatten }

/-- `comments_bound` over the whole store. -/
def commentsBound (listing : List FileEntry) (store : List TicketW) : List TicketW :=
  store.map (bindTicket listing)

/-! ## Stage 3: assemble the corpus -/

/-- Body extraction in `create_corpous` (classes.py lines 145-150):
a `Comment` object is converted through `__dict__`, a dict is used as is;
both yield the `body` field. -/
def bodyOfEntry : CommentEntry → String
  | .obj c => c.body
  | .dict d => d.body

/-- The comment bodies of one ticket, in comment insertion order. -/
def ticketBodies (t : TicketW) : List String :=
  t.comments.map bodyOfEntry

/-- `" ".join` on strings (via the character-level `joinWords`). -/
def joinStr (l : List String) : String :=
  String.mk (joinWords (l.map String.toList))

/-- `DataWrangler.create_corpous` (classes.py lines 140-157): the loop
rebinds `grouped_comments` to the current ticket's bodies on every
iteration and the `" ".join` sits outside the loop, so the produced corpus
holds only the bodies of the LAST ticket; on an empty store the join reads
an unbound variable (`NameError`), the `except` swallows it and no corpus
is produced (`none`). -/
def createCorpous (store : List TicketW) : Option String :=
  (store.foldl (fun _ t => some (ticketBodies t)) (none : Option (List String))).map joinStr

/-- Modelled from the spec: the Corpus as §3 and §4.2 stage 3 describe
it — the concatenation of every Comment body of every Ticket, tickets in
insertion order and comments in insertion order within each ticket, each
body passed through the Text Cleanser before joining. -/
def specCorpus (store : List TicketW) : String :=
  joinStr ((store.flatMap ticketBodies).map cleanse)

/-- Accumulator loop for `splitOnChar`. -/
def splitOnCharAux (sep : Char) : List Char → List Char → List (List Char)
  | [], acc => [acc.reverse]
  | c :: cs, acc =>
    if c = sep then acc.reverse :: splitOnCharAux sep cs []
    else splitOnCharAux sep cs (c :: acc)

/-- Model of Python `str.split(sep)` for a one-character separator
(empty chunks kept). -/
def splitOnChar (sep : Char) (cs : List Char) : List (List Char) :=
  splitOnCharAux sep cs []

/-- ticket number extraction in `WranglerWorker.create_corpus`
(wrangler.py lines 386-387): `filename.split("/")[-1].split(".")[0]`. -/
def ticketNoOf (name : String) : String :=
  String.mk ((splitOnChar '.' ((splitOnChar '/' name.toList).getLastD [])).headD [])

/-- `file[ticket_no]` for one comments file (wrangler.py line 388):
`KeyError` when the key is absent. -/
def fileComments (f : FileEntry) : Except PyErr (List CommentRec) :=
  match f.data.lookup (ticketNoOf f.name) with
  | some cs => .ok cs
  | none => .error .keyError

/-- The collection loop of `WranglerWorker.create_corpus`
(wrangler.py lines 383-390): iterate the comments-directory listing in
the given order, cleansing each `plain_body`. -/
def createCorpusExc : List FileEntry → Except PyErr (List String)
  | [] => .ok []
  | f :: fs =>
    match fileComments f with
    | .error e => .error e
    | .ok cs =>
      match createCorpusExc fs with
      | .error e => .error e
      | .ok rest => .ok (cs.map (fun c => cleanse c.plain_body) ++ rest)

/-- `WranglerWorker.create_corpus` (wrangler.py lines 379-398): join the
cleansed bodies in directory-listing order; any exception is caught and the
function returns `" "`. -/
def createCorpus (listing : List FileEntry) : String :=
  match createCorpusExc listing with
  | .ok parts => joinStr parts
  | .error _ => " "

/-! ## The pipeline driver (`DataWrangler.process`, classes.py
lines 159-169) -/

/-- `open(self.ticket_file)`: `FileNotFoundError` when the path does not
exist, the parsed record array otherwise. -/
def openTicketFile (tf : Option (List TicketRecord)) : Except PyErr (List TicketRecord) :=
  match tf with
  | none => .error .fileNotFound
  | some rs => .ok rs

/-- `DataWrangler.tickets_reshaped` (classes.py lines 77-104): the
`try/except` turns the internal `FileNotFoundError` into a `False` return
with an empty store. -/
def ticketsReshaped (gen : Nat → Nat) (tf : Option (List TicketRecord)) :
    List TicketW × Bool :=
  match openTicketFile tf with
  | .error _ => ([], false)
  | .ok rs => reshapeLoop gen 0 rs

/-- Observable outcome of one `process()` run. -/
structure ProcessResult where
  reshapeOk : Bool
  bindingRan : Bool
  corpusRan : Bool
  outputsWritten : List String
  raised : Option PyErr
deriving DecidableEq

/-- `DataWrangler.process` (classes.py lines 159-169):
`tickets_reshaped() and comments_bound() and create_corpous()` with
short-circuiting; the output JSON is written only when all three stages
report success, and no exception escapes (every stage catches its own). -/
def process (gen : Nat → Nat) (tf : Option (List TicketRecord))
    (listing : List FileEntry) : ProcessResult :=
  let rp := ticketsReshaped gen tf
  if rp.2 then
    let store := commentsBound listing rp.1
    match createCorpous store with
    | some _ => ⟨true, true, true, ["wrangled_data_<date>.json"], none⟩
    | none => ⟨true, true, true, [], none⟩
  else
    ⟨false, false, false, [], none⟩

end Wrangle

namespace LDA

/-! ## Input validation (`LDAModelWorker._validate_inputs`,
LDA_logic.py lines 164-181)

The source receives digit strings from the GUI; after the `str.isdigit`
gate the values reaching the comparisons are exactly the natural numbers,
so the embedding quantifies over `Nat`. -/

/-- `_validate_inputs`: rejected with the range message when
`int(passes) >= 20 or int(iterations) >= 200`. -/
def validateInputs (numberOfTopics iterations passes : Nat) : Bool × String :=
  if 20 ≤ passes ∨ 200 ≤ iterations then
    (false, "Passes should be < 20 and iterations < 200.")
  else (true, "")

/-- `LDAModelWorker.train_model` (LDA_logic.py lines 183-222) up to the
validation boundary: an invalid request is reported through the error
callback and the training thread is never started; a valid request
proceeds to the fit. -/
def trainModel (numberOfTopics iterations passes : Nat) : Except String Unit :=
  match validateInputs numberOfTopics iterations passes with
  | (true, _) => .ok ()
  | (_, msg) => .error msg

/-! ## Coherence Sweep -/

/-- The sweep loop of `LDAModelWorker.model_trained`
(LDA_logic.py lines 324-342): one future per topic count `i` in
`range(1, num_topics + 1)`, results collected in submission order, each
appending `i` to `topics` and its coherence to `coherence_values`.
`coh i` is the external engine's coherence score for the `i`-topic model
(scores abstracted as `Int`). -/
def sweepEntries (n : Nat) (coh : Nat → Int) : List (Nat × Int) :=
  (List.range' 1 n).map fun i => (i, coh i)

/-- The sweep loop of `LatentDirichletAllocator.model_trained`
(lda.py lines 89-105): `for i in range(1, 20)`, ignoring the allocator's
requested topic count entirely. -/
def sweepEntriesLda (numOfTopics : Nat) (coh : Nat → Int) : List (Nat × Int) :=
  (List.range' 1 19).map fun i => (i, coh i)

/-- The sweep loop with a fallible per-topic-count training
(`future.result()` re-raises the worker's exception): results are
collected in order, each success appending to `topics` and
`coherence_values`; the first failure aborts the collection loop, the
surrounding `except` reports failure, and the entries already appended
remain recorded. -/
def sweepLoop (train : Nat → Except Wrangle.PyErr Int) :
    List Nat → List Nat × List Int × Bool
  | [] => ([], [], true)
  | i :: is =>
    match train i with
    | .error _ => ([], [], false)
    | .ok v =>
      let rest := sweepLoop train is
      (i :: rest.1, v :: rest.2.1, rest.2.2)

/-- A full sweep over topic counts `1..n` with fallible training:
`(topics, coherence_values, succeeded)`. -/
def sweepCollect (n : Nat) (train : Nat → Except Wrangle.PyErr Int) :
    List Nat × List Int × Bool :=
  sweepLoop train (List.range' 1 n)

end LDA

namespace Wrangle

/-! ## Concrete sample data for the evaluation theorems -/

/-- A fixed valid timestamp string. -/
def ts0 : String := "2024-01-02T03:04:05Z"

/-- A well-formed sample ticket record. -/
def recSample : TicketRecord :=
  ⟨42, ts0, ts0, "subj", [], "open", ["Incident", "x", "Resolved"], "Hello world"⟩

/-- A reshaped ticket whose single synthesized comment has body "alpha". -/
def tAlpha : TicketW :=
  ⟨1, ts0, ts0, .OPEN, "s1", [], "o", "ty", [.obj ⟨100, ts0, "alpha"⟩]⟩

/-- A reshaped ticket whose single synthesized comment has body "beta". -/
def tBeta : TicketW :=
  ⟨2, ts0, ts0, .OPEN, "s2", [], "o", "ty", [.obj ⟨200, ts0, "beta"⟩]⟩

/-- Comments file for ticket 1 with a single body "alpha". -/
def fAlpha : FileEntry := ⟨"1.json", [("1", [⟨11, ts0, "alpha"⟩])]⟩

/-- Comments file for ticket 2 with a single body "beta". -/
def fBeta : FileEntry := ⟨"2.json", [("2", [⟨21, ts0, "beta"⟩])]⟩

/-- Comments file for ticket 7 with one external comment. -/
def f7 : FileEntry := ⟨"7.json", [("7", [⟨71, ts0, "external body"⟩])]⟩

/-- A reshaped ticket with id 7 and its synthesized first comment. -/
def t7 : TicketW :=
  ⟨7, ts0, ts0, .OPEN, "s", [], "o", "ty", [.obj ⟨70, ts0, "desc body"⟩]⟩

/-- A sentence holding exactly one word of each of the five discarded
kinds (email, url, uuid, md5, ipv4) among seven plain words. -/
def sampleC6 : String :=
  "please contact user@example.com about http://example.com/path error 123e4567-e89b-12d3-a456-426614174000 hash d41d8cd98f00b204e9800998ecf8427e from 192.168.0.1 today"

end Wrangle

namespace LDA

/-- A per-topic-count training that raises on topic count 3 and succeeds
elsewhere. -/
def trainFailAt3 : Nat → Except Wrangle.PyErr Int :=
  fun i => if i = 3 then .error .valueError else .ok (Int.ofNat i)

end LDA

namespace Wrangle

theorem unescapeL_id (cs : List Char) (h : ∀ c ∈ cs, c ≠ '&') :
    unescapeL cs = cs := by
  induction cs using unescapeL.induct with
  | case1 r _ => exact absurd (h '&' (by simp)) (by simp)
  | case2 r _ => exact absurd (h '&' (by simp)) (by simp)
  | case3 r _ => exact absurd (h '&' (by simp)) (by simp)
  | case4 r _ => exact absurd (h '&' (by simp)) (by simp)
  | case5 c rest h1 h2 h3 h4 ih =>
    have hc : c ≠ '&' := h c (by simp)
    rw [unescapeL, ih (fun x hx => h x (List.mem_cons_of_mem _ hx))]
    all_goals (intro r hc' hrest; exact absurd hc' hc)
  | case6 => rfl

theorem pyReplaceChar_id (a b : Char) (cs : List Char) (h : a ∉ cs) :
    pyReplaceChar a b cs = cs := by
  induction cs with
  | nil => rfl
  | cons c t ih =>
    have hca : c ≠ a := fun hh => h (by simp [hh])
    have ht := ih (fun hh => h (List.mem_cons_of_mem _ hh))
    simp only [pyReplaceChar, List.map_cons, if_neg hca] at ht ⊢
    rw [ht]

theorem mem_pyReplaceChar (a b c : Char) (cs : List Char)
    (h : c ∈ pyReplaceChar a b cs) : c = b ∨ c ∈ cs := by
  unfold pyReplaceChar at h
  obtain ⟨d, hd, hdc⟩ := List.mem_map.mp h
  by_cases hda : d = a
  · subst hdc; simp [hda]
  · subst hdc; simp [hda, hd]

theorem collapseDouble_id (cs : List Char)
    (h : List.Chain' (fun a b => ¬(a = ' ' ∧ b = ' ')) cs) :
    collapseDouble cs = cs := by
  induction cs using collapseDouble.induct with
  | case1 => rfl
  | case2 c => rfl
  | case3 c d r hcd ih => exact absurd hcd (List.chain'_cons.mp h).1
  | case4 c d r hcd ih =>
    simp only [collapseDouble, if_neg hcd]
    rw [ih (List.chain'_cons.mp h).2]

theorem mem_collapseDouble (c : Char) (cs : List Char)
    (h : c ∈ collapseDouble cs) : c ∈ cs := by
  induction cs using collapseDouble.induct with
  | case1 =>
    have hn : collapseDouble [] = [] := rfl
    rw [hn] at h
    cases h
  | case2 d =>
    have hn : collapseDouble [d] = [d] := rfl
    rw [hn] at h
    exact h
  | case3 a d r had ih =>
    simp only [collapseDouble, if_pos had] at h
    rcases List.mem_cons.mp h with h1 | h1
    · simp [h1, had.1]
    · simp [ih h1]
  | case4 a d r had ih =>
    simp only [collapseDouble, if_neg had] at h
    rcases List.mem_cons.mp h with h1 | h1
    · simp [h1]
    · simp [ih h1]

theorem splitWsAux_word (w : List Char) (hw : ∀ c ∈ w, c.isWhitespace = false) :
    ∀ cs acc, splitWsAux (w ++ cs) acc = splitWsAux cs (w.reverse ++ acc) := by
  induction w with
  | nil => intro cs acc; rfl
  | cons c w' ih =>
    intro cs acc
    have hc : c.isWhitespace = false := hw c (by simp)
    simp only [List.cons_append, splitWsAux, hc, Bool.false_eq_true, if_false, List.append_eq]
    rw [ih (fun x hx => hw x (List.mem_cons_of_mem _ hx))]
    simp

theorem splitWs_join (ws : List (List Char)) (h : ∀ w ∈ ws, goodWord w) :
    splitWs (joinWords ws) = ws := by
  induction ws with
  | nil => rfl
  | cons w ws' ih =>
    obtain ⟨hne, hwf⟩ := h w (by simp)
    cases ws' with
    | nil =>
      show splitWsAux (joinWords [w]) [] = [w]
      have : joinWords [w] = w ++ [] := by simp [joinWords]
      rw [this, splitWsAux_word w hwf]
      simp [splitWsAux, hne]
    | cons w2 t =>
      show splitWsAux (joinWords (w :: w2 :: t)) [] = w :: w2 :: t
      have hjw : joinWords (w :: w2 :: t) = w ++ ' ' :: joinWords (w2 :: t) := rfl
      rw [hjw, splitWsAux_word w hwf]
      have hstep : splitWsAux (' ' :: joinWords (w2 :: t)) (w.reverse ++ []) =
          (w.reverse ++ []).reverse :: splitWsAux (joinWords (w2 :: t)) [] := by
        simp only [splitWsAux]
        rw [if_pos (by decide), if_neg (by simp [List.isEmpty_iff, hne])]
      rw [hstep]
      simp only [List.append_nil, List.reverse_reverse]
      have hrest := ih (fun x hx => h x (List.mem_cons_of_mem _ hx))
      rw [show splitWsAux (joinWords (w2 :: t)) [] = splitWs (joinWords (w2 :: t)) from rfl, hrest]

theorem splitWsAux_wf (cs : List Char) :
    ∀ acc, (∀ c ∈ acc, c.isWhitespace = false) →
      ∀ u ∈ splitWsAux cs acc,
        u ≠ [] ∧ ∀ c ∈ u, c.isWhitespace = false ∧ (c ∈ cs ∨ c ∈ acc) := by
  induction cs with
  | nil =>
    intro acc hacc u hu
    simp only [splitWsAux] at hu
    by_cases he : acc.isEmpty
    · simp [he] at hu
    · rw [if_neg he] at hu
      rcases List.mem_singleton.mp hu with rfl
      have hane : acc ≠ [] := by simpa [List.isEmpty_iff] using he
      refine ⟨by simpa [List.reverse_eq_nil_iff] using hane, ?_⟩
      intro c hc
      have hca : c ∈ acc := List.mem_reverse.mp hc
      exact ⟨hacc c hca, Or.inr hca⟩
  | cons c cs' ih =>
    intro acc hacc u hu
    simp only [splitWsAux] at hu
    by_cases hws : c.isWhitespace
    · rw [if_pos hws] at hu
      by_cases he : acc.isEmpty
      · rw [if_pos he] at hu
        obtain ⟨h1, h2⟩ := ih [] (by simp) u hu
        exact ⟨h1, fun x hx => ⟨(h2 x hx).1, Or.inl (List.mem_cons_of_mem _ ((h2 x hx).2.resolve_right (by simp)))⟩⟩
      · rw [if_neg he] at hu
        rcases List.mem_cons.mp hu with rfl | hu2
        · have hane : acc ≠ [] := by simpa [List.isEmpty_iff] using he
          refine ⟨by simpa [List.reverse_eq_nil_iff] using hane, ?_⟩
          intro x hx
          have hxa : x ∈ acc := List.mem_reverse.mp hx
          exact ⟨hacc x hxa, Or.inr hxa⟩
        · obtain ⟨h1, h2⟩ := ih [] (by simp) u hu2
          exact ⟨h1, fun x hx => ⟨(h2 x hx).1, Or.inl (List.mem_cons_of_mem _ ((h2 x hx).2.resolve_right (by simp)))⟩⟩
    · rw [if_neg hws] at hu
      have hacc' : ∀ x ∈ c :: acc, x.isWhitespace = false := by
        intro x hx
        rcases List.mem_cons.mp hx with rfl | hx2
        · simpa using hws
        · exact hacc x hx2
      obtain ⟨h1, h2⟩ := ih (c :: acc) hacc' u hu
      refine ⟨h1, fun x hx => ⟨(h2 x hx).1, ?_⟩⟩
      rcases (h2 x hx).2 with h3 | h3
      · exact Or.inl (List.mem_cons_of_mem _ h3)
      · rcases List.mem_cons.mp h3 with rfl | h4
        · exact Or.inl (List.mem_cons_self _ _)
        · exact Or.inr h4

theorem mem_joinWords (c : Char) (ws : List (List Char)) (h : c ∈ joinWords ws) :
    c = ' ' ∨ ∃ w ∈ ws, c ∈ w := by
  induction ws using joinWords.induct with
  | case1 =>
    have hn : joinWords [] = [] := rfl
    rw [hn] at h
    cases h
  | case2 w =>
    have hn : joinWords [w] = w := rfl
    rw [hn] at h
    exact Or.inr ⟨w, by simp, h⟩
  | case3 w ws hne ih =>
    obtain ⟨w2, t, rfl⟩ := List.exists_cons_of_ne_nil (fun hh => hne hh)
    have hjw : joinWords (w :: w2 :: t) = w ++ ' ' :: joinWords (w2 :: t) := rfl
    rw [hjw] at h
    rcases List.mem_append.mp h with h1 | h1
    · exact Or.inr ⟨w, by simp, h1⟩
    · rcases List.mem_cons.mp h1 with rfl | h2
      · exact Or.inl rfl
      · rcases ih h2 with h3 | ⟨w', hw', hc⟩
        · exact Or.inl h3
        · exact Or.inr ⟨w', List.mem_cons_of_mem _ hw', hc⟩

theorem chain'_of_left {R : Char → Char → Prop} (l : List Char)
    (h : ∀ a ∈ l, ∀ b, R a b) : List.Chain' R l := by
  induction l with
  | nil => exact List.chain'_nil
  | cons a t ih =>
    cases t with
    | nil => exact List.chain'_singleton a
    | cons b t' =>
      exact List.chain'_cons.mpr ⟨h a (by simp) b, ih (fun x hx => h x (List.mem_cons_of_mem _ hx))⟩

theorem chain'_joinWords (ws : List (List Char)) (h : ∀ w ∈ ws, goodWord w) :
    List.Chain' (fun a b => ¬(a = ' ' ∧ b = ' ')) (joinWords ws) := by
  induction ws using joinWords.induct with
  | case1 => exact List.chain'_nil
  | case2 w =>
    refine chain'_of_left _ fun a ha b => ?_
    have hn : joinWords [w] = w := rfl
    rw [hn] at ha
    have := (h w (by simp)).2 a ha
    intro ⟨h1, _⟩
    rw [h1] at this
    simp [Char.isWhitespace] at this
  | case3 w ws hne ih =>
    obtain ⟨w2, t, rfl⟩ := List.exists_cons_of_ne_nil (fun hh => hne hh)
    have hjw : joinWords (w :: w2 :: t) = w ++ ' ' :: joinWords (w2 :: t) := rfl
    rw [hjw]
    refine List.chain'_append.mpr ⟨?_, ?_, ?_⟩
    · refine chain'_of_left _ fun a ha b => ?_
      have := (h w (by simp)).2 a ha
      intro ⟨h1, _⟩
      rw [h1] at this
      simp [Char.isWhitespace] at this
    · refine List.chain'_cons'.mpr ⟨?_, ih (fun x hx => h x (List.mem_cons_of_mem _ hx))⟩
      intro y hy
      obtain ⟨hne2, hwf2⟩ := h w2 (by simp)
      obtain ⟨c2, w2', rfl⟩ := List.exists_cons_of_ne_nil hne2
      have hy2 : y = c2 := by
        cases t with
        | nil => exact (by simpa [joinWords] using hy : c2 = y).symm
        | cons a l => exact (by simpa [joinWords] using hy : c2 = y).symm
      intro ⟨_, h2⟩
      have := hwf2 c2 (by simp)
      rw [hy2] at h2
      rw [h2] at this
      simp [Char.isWhitespace] at this
    · intro x hx y hy
      have hxw : x ∈ w := List.mem_of_mem_getLast? hx
      have := (h w (by simp)).2 x hxw
      intro ⟨h1, _⟩
      rw [h1] at this
      simp [Char.isWhitespace] at this

theorem cleanseWords_spec (cs : List Char) :
    ∀ w ∈ cleanseWords cs, goodWord w ∧ discardWord w = false ∧ ∀ c ∈ w, c ∈ preprocess cs := by
  intro w hw
  have h1 := List.mem_filter.mp hw
  have h2 := splitWsAux_wf (preprocess cs) [] (by simp) w h1.1
  exact ⟨⟨h2.1, fun c hc => (h2.2 c hc).1⟩, by simpa using h1.2,
    fun c hc => ((h2.2 c hc).2).resolve_right (by simp)⟩

theorem mem_preprocess (c : Char) (cs : List Char) (h : c ∈ preprocess cs) :
    c = ' ' ∨ c ∈ unescapeL cs := by
  unfold preprocess nfkc at h
  have h1 := mem_collapseDouble _ _ h
  rcases mem_pyReplaceChar _ _ _ _ h1 with h2 | h2
  · exact Or.inl h2
  · rcases mem_pyReplaceChar _ _ _ _ h2 with h3 | h3
    · exact Or.inl h3
    · exact Or.inr h3

/-- Rerunning the cleanser on an already-cleansed word list changes nothing,
provided no word still holds an `&` (an HTML reference would be re-resolved). -/
theorem cleanse_of_clean (ws : List (List Char))
    (hgood : ∀ w ∈ ws, goodWord w)
    (hpass : ∀ w ∈ ws, discardWord w = false)
    (hamp : ∀ w ∈ ws, ∀ c ∈ w, c ≠ '&') :
    cleanseWords (joinWords ws) = ws := by
  have hmem : ∀ c ∈ joinWords ws, c = ' ' ∨ ∃ w ∈ ws, c ∈ w :=
    fun c hc => mem_joinWords c ws hc
  have hnoamp : ∀ c ∈ joinWords ws, c ≠ '&' := by
    intro c hc
    rcases hmem c hc with rfl | ⟨w, hw, hcw⟩
    · decide
    · exact hamp w hw c hcw
  have hU : unescapeL (joinWords ws) = joinWords ws := unescapeL_id _ hnoamp
  have hnoNl : ('\n') ∉ joinWords ws := by
    intro hc
    rcases hmem _ hc with h1 | ⟨w, hw, hcw⟩
    · exact absurd h1 (by decide)
    · have hw2 := (hgood w hw).2 _ hcw
      have hwt : ('\n').isWhitespace = true := by decide
      rw [hwt] at hw2
      cases hw2
  have hnoCr : ('\r') ∉ joinWords ws := by
    intro hc
    rcases hmem _ hc with h1 | ⟨w, hw, hcw⟩
    · exact absurd h1 (by decide)
    · have hw2 := (hgood w hw).2 _ hcw
      have hwt : ('\r').isWhitespace = true := by decide
      rw [hwt] at hw2
      cases hw2
  have hC : collapseDouble (joinWords ws) = joinWords ws :=
    collapseDouble_id _ (chain'_joinWords ws hgood)
  unfold cleanseWords preprocess nfkc
  rw [hU, pyReplaceChar_id _ _ _ hnoNl, pyReplaceChar_id _ _ _ hnoCr, hC,
    splitWs_join ws hgood, List.filter_eq_self.mpr (by intro w hw; simp [hpass w hw])]

/-- Core idempotence: on ampersand-free input the cleanser is a projection. -/
theorem cleanse_idem_of_no_amp (s : String) (h : ∀ c ∈ s.toList, c ≠ '&') :
    cleanse (cleanse s) = cleanse s := by
  have hspec := cleanseWords_spec s.toList
  have hgood : ∀ w ∈ cleanseWords s.toList, goodWord w := fun w hw => (hspec w hw).1
  have hpass : ∀ w ∈ cleanseWords s.toList, discardWord w = false :=
    fun w hw => (hspec w hw).2.1
  have hamp : ∀ w ∈ cleanseWords s.toList, ∀ c ∈ w, c ≠ '&' := by
    intro w hw c hc
    have hcp := (hspec w hw).2.2 c hc
    rcases mem_preprocess c s.toList hcp with rfl | h2
    · decide
    · rw [unescapeL_id s.toList h] at h2
      exact h c h2
  unfold cleanse
  have hms : (String.mk (joinWords (cleanseWords s.toList))).toList
      = joinWords (cleanseWords s.toList) := rfl
  rw [hms, cleanse_of_clean _ hgood hpass hamp]

end Wrangle
namespace Wrangle

/-! ## Helper lemmas for the pipeline claims -/

/-- Binding comments never removes a comment: the bound ticket's list is
the original list with the dict entries appended. -/
theorem bindTicket_comments_le (listing : List FileEntry) (t : TicketW) :
    t.comments.length ≤ (bindTicket listing t).comments.length := by
  simp only [bindTicket, List.length_append]
  omega

/-- A record passing `recordParses` reshapes to a ticket whose comment
list is exactly the synthesized description comment. -/
theorem reshapeTicket_of_parses (cid : Nat) (r : TicketRecord)
    (h : recordParses r = true) :
    ∃ t, reshapeTicket cid r = .ok t ∧
      t.comments = [.obj ⟨cid, r.created_at, r.description⟩] := by
  unfold recordParses at h
  simp only [Bool.and_eq_true, decide_eq_true_eq, Option.isSome_iff_exists] at h
  obtain ⟨⟨⟨h1, h2⟩, h3⟩, st, h4⟩ := h
  unfold reshapeTicket
  rw [h1, h2]
  simp only [Bool.not_true, Bool.false_eq_true, if_false]
  have g2 : r.fields.get? 2 = some (r.fields.get ⟨2, by omega⟩) := List.get?_eq_get (by omega)
  have g0 : r.fields.get? 0 = some (r.fields.get ⟨0, by omega⟩) := List.get?_eq_get (by omega)
  rw [g2, g0, h4]
  exact ⟨_, rfl, rfl⟩

/-! ## Claim theorems (Wrangle side) -/

/-- C1: the corpus-assembly stage of `DataWrangler.create_corpous` is
claimed to concatenate every comment body of every ticket in order; in
fact the accumulator is re-bound inside the ticket loop and the join sits
outside it, so the produced corpus holds only the LAST ticket's bodies.
On the two-ticket store `[tAlpha, tBeta]` the code yields `"beta"` while
the specified corpus is `"alpha beta"`. -/
theorem claim1_createCorpous_keeps_only_last_ticket :
    (∀ (store : List TicketW) (t : TicketW),
      createCorpous (store ++ [t]) = some (joinStr (ticketBodies t)))
    ∧ createCorpous [tAlpha, tBeta] = some "beta"
    ∧ specCorpus [tAlpha, tBeta] = "alpha beta"
    ∧ createCorpous [tAlpha, tBeta] ≠ some (specCorpus [tAlpha, tBeta]) := by
  refine ⟨?_, by decide, by decide, by decide⟩
  intro store t
  unfold createCorpous
  rw [List.foldl_append]
  rfl

/-- C5: `WranglerWorker.create_corpus` concatenates cleansed bodies in
directory-listing order without sorting, so two permutations of the same
listing yield different corpora: `[fAlpha, fBeta]` gives `"alpha beta"`,
the permuted `[fBeta, fAlpha]` gives `"beta alpha"`. -/
theorem claim5_corpus_depends_on_listing_order :
    List.Perm [fAlpha, fBeta] [fBeta, fAlpha]
    ∧ createCorpus [fAlpha, fBeta] = "alpha beta"
    ∧ createCorpus [fBeta, fAlpha] = "beta alpha"
    ∧ createCorpus [fAlpha, fBeta] ≠ createCorpus [fBeta, fAlpha] := by
  refine ⟨by decide, by decide, by decide, by decide⟩

/-- C6: the Text Cleanser splits the normalised text into whitespace
words and discards exactly the validator-matched words; on the sample
sentence the raw split has 12 words, the cleansed list has 7 (exactly 5
fewer), the removed words are precisely the email, url, uuid, md5 and
ipv4 words, and no other word is removed. -/
theorem claim6_cleanser_discards_exactly_validator_words :
    (∀ (cs w : List Char),
      w ∈ cleanseWords cs ↔ (w ∈ splitWs (preprocess cs) ∧ discardWord w = false))
    ∧ (splitWs sampleC6.toList).length = 12
    ∧ (cleanseWords sampleC6.toList).length + 5 = (splitWs sampleC6.toList).length
    ∧ cleanse sampleC6 = "please contact about error hash from today"
    ∧ (splitWs sampleC6.toList).filter (fun w => discardWord w)
        = ["user@example.com".toList, "http://example.com/path".toList,
           "123e4567-e89b-12d3-a456-426614174000".toList,
           "d41d8cd98f00b204e9800998ecf8427e".toList, "192.168.0.1".toList] := by
  refine ⟨?_, by decide, by decide, by decide, by decide⟩
  intro cs w
  unfold cleanseWords
  rw [List.mem_filter]
  simp

/-- C7 counterexample: the Text Cleanser is not idempotent: the HTML
unescape step acts again on its own output, so
`cleanse "&amp;amp;" = "&amp;"` but a second application gives `"&"`. -/
theorem claim7_cleanse_not_idempotent :
    cleanse (cleanse "&amp;amp;") ≠ cleanse "&amp;amp;"
    ∧ cleanse "&amp;amp;" = "&amp;"
    ∧ cleanse (cleanse "&amp;amp;") = "&" := by
  refine ⟨by decide, by decide, by decide⟩

/-- C7 amended: the Text Cleanser is idempotent on every input containing
no ampersand (no HTML character reference survives into the output, so the
second pass changes nothing). -/
theorem claim7_cleanse_idempotent_amended :
    ∀ s : String, (∀ c ∈ s.toList, c ≠ '&') → cleanse (cleanse s) = cleanse s :=
  fun s h => cleanse_idem_of_no_amp s h

/-- C7 witness: the amended idempotence at the concrete input
"hello world". -/
theorem claim7_witness :
    (∀ c ∈ ("hello world" : String).toList, c ≠ '&')
    ∧ cleanse (cleanse "hello world") = cleanse "hello world" :=
  ⟨by decide, claim7_cleanse_idempotent_amended "hello world" (by decide)⟩

/-- C8 counterexample: on a missing ticket file `process` raises nothing:
the internal `FileNotFoundError` is caught inside `tickets_reshaped`,
which returns `False`; `process` completes normally (so the pipeline does
NOT fail with a propagating FileNotFoundError), though it does abort
before comment binding and writes no output. -/
theorem claim8_no_exception_escapes_process :
    (process (fun _ => 0) none []).raised = none
    ∧ (process (fun _ => 0) none []).raised ≠ some PyErr.fileNotFound
    ∧ (process (fun _ => 0) none []).bindingRan = false
    ∧ (process (fun _ => 0) none []).outputsWritten = [] := by
  refine ⟨rfl, by decide, rfl, rfl⟩

/-- C8 amended: when the ticket file is missing, opening it yields a
FileNotFoundError internally; the reshape stage swallows it and reports
failure, the pipeline aborts before comment binding, writes no output
files, and no exception propagates out of `process`. -/
theorem claim8_missing_ticket_file_amended :
    ∀ (gen : Nat → Nat) (listing : List FileEntry),
      openTicketFile none = (.error .fileNotFound : Except PyErr (List TicketRecord))
      ∧ process gen none listing = ⟨false, false, false, [], none⟩ :=
  fun _ _ => ⟨rfl, rfl⟩

/-- C9: every ticket record that parses successfully contributes exactly
one Ticket to the store, whose comment list at creation is exactly the
synthesized comment built from the record's own description (with the
generated id), so every stored Ticket has at least one comment; comment
binding only ever appends, preserving the invariant afterwards. -/
theorem claim9_reshape_tickets :
    ∀ (gen : Nat → Nat) (idx : Nat) (records : List TicketRecord),
      (∀ r ∈ records, recordParses r = true) →
      (reshapeLoop gen idx records).2 = true
      ∧ (reshapeLoop gen idx records).1.length = records.length
      ∧ List.Forall₂
          (fun (r : TicketRecord) (t : TicketW) =>
            1 ≤ t.comments.length ∧
              ∃ cid, t.comments = [.obj ⟨cid, r.created_at, r.description⟩])
          records (reshapeLoop gen idx records).1
      ∧ ∀ (listing : List FileEntry) (t : TicketW),
          t.comments.length ≤ (bindTicket listing t).comments.length := by
  intro gen idx records
  induction records generalizing idx with
  | nil =>
    intro _
    exact ⟨rfl, rfl, List.Forall₂.nil, fun listing t => bindTicket_comments_le listing t⟩
  | cons r rs ih =>
    intro h
    obtain ⟨t, ht, hc⟩ := reshapeTicket_of_parses (gen idx) r (h r (by simp))
    have hrest := ih (idx + 1) (fun x hx => h x (List.mem_cons_of_mem _ hx))
    simp only [reshapeLoop, ht]
    exact ⟨hrest.1, by simp [hrest.2.1],
      List.Forall₂.cons ⟨by simp [hc], ⟨gen idx, hc⟩⟩ hrest.2.2.1, hrest.2.2.2⟩

/-- C9 witness: the reshape invariant at the concrete one-record list. -/
theorem claim9_witness :
    (reshapeLoop (fun _ => 7) 0 [recSample]).2 = true
    ∧ (reshapeLoop (fun _ => 7) 0 [recSample]).1.length
        = ([recSample] : List TicketRecord).length
    ∧ List.Forall₂
        (fun (r : TicketRecord) (t : TicketW) =>
          1 ≤ t.comments.length ∧
            ∃ cid, t.comments = [.obj ⟨cid, r.created_at, r.description⟩])
        [recSample] (reshapeLoop (fun _ => 7) 0 [recSample]).1
    ∧ ∀ (listing : List FileEntry) (t : TicketW),
        t.comments.length ≤ (bindTicket listing t).comments.length :=
  claim9_reshape_tickets (fun _ => 7) 0 [recSample] (by decide)

/-- C10: after binding in the classes.py variant a ticket's comment list
is heterogeneous: binding only appends plain-dict entries after the
existing entries (the synthesized first comment stays a Comment object),
and the corpus assembly's body extraction accepts both shapes; on the
concrete reshaped ticket `t7` bound against file `f7` the list is exactly
an object followed by a dict. -/
theorem claim10_heterogeneous_comments :
    (∀ (listing : List FileEntry) (store : List TicketW),
      List.Forall₂
        (fun t t2 => ∃ app, t2.comments = t.comments ++ app
          ∧ ∀ e ∈ app, isDictEntry e = true)
        store (commentsBound listing store))
    ∧ (∀ c : CommentW, bodyOfEntry (.obj c) = c.body ∧ bodyOfEntry (.dict c) = c.body)
    ∧ commentsBound [f7] [t7] =
        [⟨7, ts0, ts0, .OPEN, "s", [], "o", "ty",
          [.obj ⟨70, ts0, "desc body"⟩, .dict ⟨71, ts0, "external body"⟩]⟩] := by
  refine ⟨?_, fun c => ⟨rfl, rfl⟩, by decide⟩
  intro listing store
  unfold commentsBound
  rw [List.forall₂_map_right_iff, List.forall₂_same]
  intro t _
  refine ⟨_, rfl, ?_⟩
  intro e he
  obtain ⟨l1, hl1, he1⟩ := List.mem_flatten.mp he
  obtain ⟨f, _, rfl⟩ := List.mem_map.mp hl1
  unfold commentsFromFile at he1
  obtain ⟨c, _, rfl⟩ := List.mem_map.mp he1
  rfl

end Wrangle

namespace LDA

/-! ## Claim theorems (LDA side) -/

/-- Helper: the fallible sweep collects exactly the longest successful
initial segment, reports success exactly when every training succeeded,
and keeps `topics` and `coherence_values` aligned. -/
theorem sweepLoop_spec (train : Nat → Except Wrangle.PyErr Int) (l : List Nat) :
    (sweepLoop train l).1 = l.takeWhile (fun i => Wrangle.exceptOk (train i))
    ∧ (sweepLoop train l).2.2 = l.all (fun i => Wrangle.exceptOk (train i))
    ∧ (sweepLoop train l).2.1.length = (sweepLoop train l).1.length := by
  induction l with
  | nil => exact ⟨rfl, rfl, rfl⟩
  | cons i is ih =>
    cases htr : train i with
    | error e =>
      simp [sweepLoop, htr, List.takeWhile_cons, Wrangle.exceptOk]
    | ok v =>
      simp [sweepLoop, htr, List.takeWhile_cons, Wrangle.exceptOk,
        ih.1, ih.2.1, ih.2.2]

/-- C2 counterexample: the lda.py sweep hard-codes `range(1, 20)` and
ignores the requested topic-count range: requesting 1..5 yields 19
entries with topic counts 1..19, not exactly {1,...,5}. -/
theorem claim2_lda_sweep_ignores_requested_range :
    ((sweepEntriesLda 5 (fun _ => 0)).map Prod.fst ≠ [1, 2, 3, 4, 5])
    ∧ (sweepEntriesLda 5 (fun _ => 0)).length = 19
    ∧ (sweepEntriesLda 5 (fun _ => 0)).map Prod.fst
        = [1, 2, 3, 4, 5, 6, 7, 8, 9, 10, 11, 12, 13, 14, 15, 16, 17, 18, 19] := by
  refine ⟨by decide, by decide, by decide⟩

/-- C2 amended: the LDA_logic.py sweep satisfies the invariant for every
requested N: exactly one entry per topic count, topic counts exactly
1..N in strictly ascending order with no duplicates and nothing dropped;
the lda.py variant produces the same shape but always for the fixed
range 1..19, whatever count was requested. -/
theorem claim2_sweep_amended :
    ∀ (n : Nat) (coh : Nat → Int),
      (sweepEntries n coh).length = n
      ∧ (sweepEntries n coh).map Prod.fst = List.range' 1 n
      ∧ List.Chain' (fun a b => a < b) ((sweepEntries n coh).map Prod.fst)
      ∧ (∀ k : Nat, ((sweepEntries n coh).map Prod.fst).count k
          = if 1 ≤ k ∧ k ≤ n then 1 else 0)
      ∧ (∀ requested : Nat,
          (sweepEntriesLda requested coh).map Prod.fst = List.range' 1 19) := by
  intro n coh
  have hmap : (sweepEntries n coh).map Prod.fst = List.range' 1 n := by
    unfold sweepEntries
    rw [List.map_map]
    rw [show (Prod.fst ∘ fun i => (i, coh i)) = id from rfl, List.map_id]
  refine ⟨by simp [sweepEntries], hmap, ?_, ?_, ?_⟩
  · rw [hmap]
    exact (List.pairwise_lt_range' 1 n).chain'
  · intro k
    rw [hmap]
    by_cases hk : 1 ≤ k ∧ k ≤ n
    · rw [if_pos hk]
      exact List.count_eq_one_of_mem (List.nodup_range' 1 n)
        (List.mem_range'_1.mpr ⟨hk.1, by omega⟩)
    · rw [if_neg hk]
      refine List.count_eq_zero.mpr ?_
      intro hm
      rw [List.mem_range'_1] at hm
      omega
  · intro requested
    unfold sweepEntriesLda
    rw [List.map_map]
    rw [show (Prod.fst ∘ fun i => (i, coh i)) = id from rfl, List.map_id]

/-- C3: validation rejects a training request exactly when
`iterations >= 200` or `passes >= 20`, before any fit is attempted: the
boundary is exclusive (200 or 20 fail, 199 and 19 pass). -/
theorem claim3_validation_boundary :
    ∀ (numberOfTopics iterations passes : Nat),
      ((validateInputs numberOfTopics iterations passes).1 = false
        ↔ (200 ≤ iterations ∨ 20 ≤ passes))
      ∧ (Wrangle.exceptOk (trainModel numberOfTopics iterations passes) = true
        ↔ (iterations < 200 ∧ passes < 20))
      ∧ Wrangle.exceptOk (trainModel numberOfTopics 200 19) = false
      ∧ Wrangle.exceptOk (trainModel numberOfTopics 199 20) = false
      ∧ Wrangle.exceptOk (trainModel numberOfTopics 199 19) = true := by
  intro t i p
  have hval : (validateInputs t i p).1 = false ↔ (200 ≤ i ∨ 20 ≤ p) := by
    unfold validateInputs
    split_ifs with h
    · exact iff_of_true rfl h.symm
    · exact iff_of_false (by simp) (fun hor => h hor.symm)
  have htrain : Wrangle.exceptOk (trainModel t i p) = true ↔ (i < 200 ∧ p < 20) := by
    unfold trainModel validateInputs
    split_ifs with h
    · exact iff_of_false (by simp [Wrangle.exceptOk]) (by omega)
    · exact iff_of_true (by simp [Wrangle.exceptOk]) (by omega)
  exact ⟨hval, htrain, rfl, rfl, rfl⟩

/-- C4 counterexample: when training fails at topic count 3 of a 1..5
sweep, the recorded collections are NOT empty afterwards: the entries
appended for counts 1 and 2 before the failure remain. -/
theorem claim4_failed_sweep_keeps_partial_results :
    sweepCollect 5 trainFailAt3 = ([1, 2], [1, 2], false)
    ∧ (sweepCollect 5 trainFailAt3).1 ≠ []
    ∧ (sweepCollect 5 trainFailAt3).2.1 ≠ [] := by
  refine ⟨by decide, by decide, by decide⟩

/-- C4 amended: an exception in any single training aborts the sweep (it
reports failure and records nothing for the failing or later counts), but
the entries recorded before the first failure remain: the recorded topics
are exactly the longest successful initial segment of 1..N, with the
coherence list aligned to it. -/
theorem claim4_sweep_partial_prefix :
    ∀ (n : Nat) (train : Nat → Except Wrangle.PyErr Int),
      (sweepCollect n train).1
          = (List.range' 1 n).takeWhile (fun i => Wrangle.exceptOk (train i))
      ∧ (sweepCollect n train).2.2
          = (List.range' 1 n).all (fun i => Wrangle.exceptOk (train i))
      ∧ (sweepCollect n train).2.1.length = (sweepCollect n train).1.length :=
  fun n train => sweepLoop_spec train (List.range' 1 n)

end LDA
